import Mathlib

/-!
A shallow embedding of the event-processing pipeline of the ATLAS Open Data
HZZ analysis notebook (`HZZAnalysis-Combination.ipynb`), together with
theorems checking the natural-language specification against it.

Numeric modelling conventions: exact rationals stand in for Python floats in
the weight, selection, streaming and histogram components (whose claims are
algebraic); the kinematic calculator, which uses transcendental functions
(cos, sin, sinh, sqrt), is modelled over the reals.  Fallible code paths
(division by zero, short lepton lists, unreadable files) are modelled with
`Except`.
-/

/-- Error taxonomy of the pipeline, as named in the specification.
In the Python source these surface as `ZeroDivisionError`, an awkward-array
index error, and an `uproot`/OS exception respectively. -/
inductive AnalysisError where
  | DivisionByZero
  | InsufficientLeptons
  | IOError
  deriving DecidableEq, Repr

/-- One event record as read from the `mini` tree: per-lepton charge and
type-code sequences, the Monte-Carlo generator weight and the four scale
factors, plus the `totalWeight` column which `read_file` may attach
(`none` until attached). -/
structure Event where
  lep_charge : List ℤ
  lep_type : List ℤ
  mcWeight : ℚ
  scaleFactor_PILEUP : ℚ
  scaleFactor_ELE : ℚ
  scaleFactor_MUON : ℚ
  scaleFactor_LepTRIGGER : ℚ
  totalWeight : Option ℚ := none

/-- `calc_weight(xsec_weight, events)` from the notebook: the product of the
cross-section weight, the generator weight and the four scale factors. -/
def calc_weight (xsec_weight : ℚ) (events : Event) : ℚ :=
  xsec_weight
    * events.mcWeight
    * events.scaleFactor_PILEUP
    * events.scaleFactor_ELE
    * events.scaleFactor_MUON
    * events.scaleFactor_LepTRIGGER

/-- The assignment `data['totalWeight'] = calc_weight(xsec_weight, data)`
performed by `read_file` on simulation batches, per event. -/
def add_totalWeight (xsec_weight : ℚ) (e : Event) : Event :=
  { e with totalWeight := some (calc_weight xsec_weight e) }

/-- One record of the static metadata table `infofile.infos`, keyed fields
as in the Python dictionary. -/
structure NormalizationRecord where
  xsec : ℚ
  sumw : ℚ
  red_eff : ℚ
  DSID : ℕ

/-- `get_xsec_weight` from the notebook:
`(lumi*1000*info["xsec"])/(info["sumw"]*info["red_eff"])`.  Python float
division raises `ZeroDivisionError` on a zero denominator, modelled here by
the `Except` error branch. -/
def get_xsec_weight (lumi : ℚ) (info : NormalizationRecord) : Except AnalysisError ℚ :=
  if info.sumw * info.red_eff = 0 then
    .error .DivisionByZero
  else
    .ok (lumi * 1000 * info.xsec / (info.sumw * info.red_eff))

/-- `cut_lep_charge` from the notebook: the per-event rejection mask
`lep_charge[:, 0] + lep_charge[:, 1] + lep_charge[:, 2] + lep_charge[:, 3] != 0`. -/
def cut_lep_charge (lep_charge : List ℤ) : Bool :=
  decide (lep_charge.getD 0 0 + lep_charge.getD 1 0 + lep_charge.getD 2 0
    + lep_charge.getD 3 0 ≠ 0)

/-- `cut_lep_type` from the notebook: rejection mask
`(sum_lep_type != 44) & (sum_lep_type != 48) & (sum_lep_type != 52)` where
`sum_lep_type` is the sum of the first four type codes. -/
def cut_lep_type (lep_type : List ℤ) : Bool :=
  let sum_lep_type := lep_type.getD 0 0 + lep_type.getD 1 0 + lep_type.getD 2 0
    + lep_type.getD 3 0
  decide (sum_lep_type ≠ 44) && decide (sum_lep_type ≠ 48) && decide (sum_lep_type ≠ 52)

/-- The two filtering steps of `read_file`:
`data = data[~cut_lep_charge(data.lep_charge)]` followed by
`data = data[~cut_lep_type(data.lep_type)]`. -/
def selectEvents (batch : List Event) : List Event :=
  (batch.filter (fun e => ! cut_lep_charge e.lep_charge)).filter
    (fun e => ! cut_lep_type e.lep_type)

/-- The Python test `'data' in sample`: the four characters `data` occur as a
contiguous substring of the sample identifier. -/
def containsData (sample : String) : Bool :=
  decide ("data".toList <:+: sample.toList)

/-- The weight-attachment step of `read_file`:
`if 'data' not in sample: data['totalWeight'] = calc_weight(xsec_weight, data)`.
For a sample whose identifier contains `'data'` the batch passes through
unchanged. -/
def attachTotalWeight (sample : String) (xsec_weight : ℚ) (data0 : List Event) :
    List Event :=
  if containsData sample then data0 else data0.map (add_totalWeight xsec_weight)

/-- The per-batch body of `read_file`: attach `totalWeight` when the sample
identifier does not contain `'data'`, then apply the charge cut and the type
cut.  (The subsequent `mllll` assignment is modelled by the kinematic
calculator `calc_mllll` below.) -/
def read_file_batch (sample : String) (xsec_weight : ℚ) (data0 : List Event) :
    List Event :=
  selectEvents (attachTotalWeight sample xsec_weight data0)

/-- The file-name construction of `get_data_from_files`:
prefix selection tests the category name `s == 'data'` (exact equality),
then `fileString = tuple_path+prefix+val+".4lep.root"`. -/
def fileString (tuple_path category sample : String) (dsid : ℕ) : String :=
  tuple_path
    ++ (if category = "data" then "Data/" else "MC/mc_" ++ toString dsid ++ ".")
    ++ sample ++ ".4lep.root"

/-- The per-category loop of `get_data_from_files`: read every constituent
sample in order and concatenate the resulting frames.  A raised exception in
`read_file` (modelled by `fetch` returning `.error`) propagates: there is no
handler in the source. -/
def get_data_from_files (fetch : String → Except AnalysisError (List Event)) :
    List String → Except AnalysisError (List Event)
  | [] => .ok []
  | s :: rest =>
    match fetch s with
    | .error e => .error e
    | .ok frame =>
      match get_data_from_files fetch rest with
      | .error e => .error e
      | .ok frames => .ok (frame ++ frames)

/-- Claim C1: the total per-event weight attached by the pipeline equals the
cross-section weight times the product of the event's `mcWeight` and its four
scale factors, and that product is unchanged by any permutation of the four
scale-factor columns. -/
theorem claim_C1 (xsec_weight : ℚ) (e : Event) :
    (add_totalWeight xsec_weight e).totalWeight
      = some (xsec_weight * e.mcWeight * e.scaleFactor_PILEUP * e.scaleFactor_ELE
          * e.scaleFactor_MUON * e.scaleFactor_LepTRIGGER)
    ∧ ∀ sf : List ℚ,
        sf.Perm [e.scaleFactor_PILEUP, e.scaleFactor_ELE, e.scaleFactor_MUON,
          e.scaleFactor_LepTRIGGER] →
        xsec_weight * e.mcWeight * sf.prod = calc_weight xsec_weight e := by
  refine ⟨rfl, fun sf hperm => ?_⟩
  rw [hperm.prod_eq]
  simp [calc_weight]
  ring

/-- Witness for C1 at a concrete event, with the pileup and electron scale
factors swapped. -/
theorem claim_C1_witness :
    (3:ℚ) * 2 * ([7, 5, 11, 13] : List ℚ).prod
      = calc_weight 3 ⟨[], [], 2, 5, 7, 11, 13, none⟩ :=
  (claim_C1 3 ⟨[], [], 2, 5, 7, 11, 13, none⟩).2 [7, 5, 11, 13]
    (List.Perm.swap 5 7 [11, 13])

/-- Claim C2: for a metadata record with nonzero `sumw` and `red_eff` the
cross-section weight is `lumi * 1000 * xsec / (sumw * red_eff)`; a zero
`sumw` or `red_eff` yields a division error instead of a value. -/
theorem claim_C2 (lumi : ℚ) (info : NormalizationRecord) :
    (info.sumw ≠ 0 → info.red_eff ≠ 0 →
      get_xsec_weight lumi info
        = .ok (lumi * 1000 * info.xsec / (info.sumw * info.red_eff)))
    ∧ ((info.sumw = 0 ∨ info.red_eff = 0) →
      get_xsec_weight lumi info = .error .DivisionByZero) := by
  constructor
  · intro h1 h2
    rw [get_xsec_weight, if_neg (mul_ne_zero h1 h2)]
  · intro h
    rcases h with h | h <;> rw [get_xsec_weight, if_pos (by rw [h]; ring)]

/-- Witness for C2: a record with `sumw = 2`, `red_eff = 1` yields the
formula value; a record with `sumw = 0` yields the division error. -/
theorem claim_C2_witness :
    get_xsec_weight 10 ⟨5, 2, 1, 700325⟩ = .ok (10 * 1000 * 5 / (2 * 1))
    ∧ get_xsec_weight 10 ⟨5, 0, 1, 700325⟩ = .error .DivisionByZero :=
  ⟨(claim_C2 10 ⟨5, 2, 1, 700325⟩).1 (by norm_num) (by norm_num),
   (claim_C2 10 ⟨5, 0, 1, 700325⟩).2 (Or.inl rfl)⟩

/-- Claim C3: the selection keeps exactly the events whose first four lepton
charges sum to zero and whose first four type codes sum to one of
44, 48, 52, and the survivors keep their relative order (sublist of the
input batch). -/
theorem claim_C3 (batch : List Event) :
    selectEvents batch
      = batch.filter (fun e =>
          decide (e.lep_charge.getD 0 0 + e.lep_charge.getD 1 0
              + e.lep_charge.getD 2 0 + e.lep_charge.getD 3 0 = 0)
          && decide (e.lep_type.getD 0 0 + e.lep_type.getD 1 0
              + e.lep_type.getD 2 0 + e.lep_type.getD 3 0 ∈ ([44, 48, 52] : List ℤ)))
    ∧ (selectEvents batch).Sublist batch := by
  constructor
  · rw [selectEvents, List.filter_filter]
    apply List.filter_congr
    intro e _
    by_cases hc : e.lep_charge.getD 0 0 + e.lep_charge.getD 1 0
        + e.lep_charge.getD 2 0 + e.lep_charge.getD 3 0 = 0 <;>
      by_cases h44 : e.lep_type.getD 0 0 + e.lep_type.getD 1 0
          + e.lep_type.getD 2 0 + e.lep_type.getD 3 0 = 44 <;>
        by_cases h48 : e.lep_type.getD 0 0 + e.lep_type.getD 1 0
            + e.lep_type.getD 2 0 + e.lep_type.getD 3 0 = 48 <;>
          by_cases h52 : e.lep_type.getD 0 0 + e.lep_type.getD 1 0
              + e.lep_type.getD 2 0 + e.lep_type.getD 3 0 = 52 <;>
            simp_all [cut_lep_charge, cut_lep_type]
  · exact (List.filter_sublist _).trans (List.filter_sublist _)

/-- Claim C9: if reading any constituent sample of a category fails, the
per-category aggregation loop propagates the error; it never returns a
partial concatenated result for that category. -/
theorem claim_C9 (fetch : String → Except AnalysisError (List Event))
    (names : List String) (s : String) (err : AnalysisError)
    (hmem : s ∈ names) (herr : fetch s = .error err) :
    ∃ e', get_data_from_files fetch names = .error e' := by
  induction names with
  | nil => simp at hmem
  | cons n rest ih =>
    rcases List.mem_cons.mp hmem with rfl | hmem'
    · exact ⟨err, by simp [get_data_from_files, herr]⟩
    · obtain ⟨e', he'⟩ := ih hmem'
      cases hf : fetch n with
      | error e2 => exact ⟨e2, by simp [get_data_from_files, hf]⟩
      | ok fr => exact ⟨e', by simp [get_data_from_files, hf, he']⟩

/-- Witness for C9: a category of one sample whose read fails yields an
error, not a partial result. -/
theorem claim_C9_witness :
    ∃ e', get_data_from_files (fun _ => .error .IOError) ["data_A"]
      = .error e' :=
  claim_C9 (fun _ => .error .IOError) ["data_A"] "data_A" .IOError
    (List.mem_singleton.mpr rfl) rfl

/-- Claim C10: `read_file` attaches `totalWeight` iff the substring `data`
does not occur in the sample identifier, while the path prefix is chosen by
exact equality of the category name with `data`; hence a simulated sample
whose identifier contains `data` gets no weight attached although it is read
with the simulation path prefix. -/
theorem claim_C10 (tuple_path category sample : String) (dsid : ℕ)
    (xsec_weight : ℚ) (batch : List Event)
    (hcat : category ≠ "data") (hsub : containsData sample = true) :
    (∀ s' (xw' : ℚ) (b' : List Event),
        (containsData s' = false →
          attachTotalWeight s' xw' b' = b'.map (add_totalWeight xw'))
        ∧ (containsData s' = true → attachTotalWeight s' xw' b' = b'))
    ∧ fileString tuple_path category sample dsid
        = tuple_path ++ ("MC/mc_" ++ toString dsid ++ ".") ++ sample ++ ".4lep.root"
    ∧ attachTotalWeight sample xsec_weight batch = batch := by
  refine ⟨fun s' xw' b' => ⟨fun hno => ?_, fun hyes => ?_⟩, ?_, ?_⟩
  · rw [attachTotalWeight, hno]; rfl
  · rw [attachTotalWeight, hyes]; rfl
  · rw [fileString, if_neg hcat]
  · rw [attachTotalWeight, hsub]; rfl

/-- Witness for C10: the hypothetical simulated sample identifier
`Zdata125` in a non-`data` category gets the simulation path prefix but no
attached weight. -/
theorem claim_C10_witness :
    (∀ s' (xw' : ℚ) (b' : List Event),
        (containsData s' = false →
          attachTotalWeight s' xw' b' = b'.map (add_totalWeight xw'))
        ∧ (containsData s' = true → attachTotalWeight s' xw' b' = b'))
    ∧ fileString "T/" "Background" "Zdata125" 361106
        = "T/" ++ ("MC/mc_" ++ toString 361106 ++ ".") ++ "Zdata125" ++ ".4lep.root"
    ∧ attachTotalWeight "Zdata125" 2 [] = [] :=
  claim_C10 "T/" "Background" "Zdata125" 361106 2 []
    (by decide) (by decide)

/-- A four-vector in Cartesian components, as the `vector` library represents
the result of summing momentum four-vectors. -/
structure Vec4 where
  px : ℝ
  py : ℝ
  pz : ℝ
  E : ℝ

/-- The `vector` library's construction of a momentum four-vector from
`(pt, eta, phi, E)`: `px = pt cos phi`, `py = pt sin phi`,
`pz = pt sinh eta`. -/
noncomputable def vecFromPtEtaPhiE (pt eta phi E : ℝ) : Vec4 :=
  ⟨pt * Real.cos phi, pt * Real.sin phi, pt * Real.sinh eta, E⟩

/-- Component-wise four-vector addition (`p4[:, i] + p4[:, j]`). -/
def Vec4.add (v w : Vec4) : Vec4 :=
  ⟨v.px + w.px, v.py + w.py, v.pz + w.pz, v.E + w.E⟩

/-- The `.M` property: invariant mass from total energy and momentum
magnitude. -/
noncomputable def Vec4.M (v : Vec4) : ℝ :=
  Real.sqrt (v.E ^ 2 - (v.px ^ 2 + v.py ^ 2 + v.pz ^ 2))

/-- The unit constant `MeV = 0.001` of the notebook. -/
def MeV : ℝ := 0.001

/-- `vector.zip({"pt": .., "eta": .., "phi": .., "E": ..})` for one event:
the per-lepton lists combined into a list of four-vectors. -/
noncomputable def zipVec4 : List ℝ → List ℝ → List ℝ → List ℝ → List Vec4
  | pt :: pts, eta :: etas, phi :: phis, E :: Es =>
      vecFromPtEtaPhiE pt eta phi E :: zipVec4 pts etas phis Es
  | _, _, _, _ => []

/-- `calc_mllll` from the notebook, per event: build the four-vectors, sum
the first four (`p4[:,0] + p4[:,1] + p4[:,2] + p4[:,3]`), take `.M` and
rescale by `MeV`.  An event in which fewer than four leptons reach this
calculation makes the awkward-array index `[:, 3]` fail, modelled by the
`InsufficientLeptons` error. -/
noncomputable def calc_mllll (lep_pt lep_eta lep_phi lep_E : List ℝ) :
    Except AnalysisError ℝ :=
  if 4 ≤ lep_pt.length ∧ 4 ≤ lep_eta.length ∧ 4 ≤ lep_phi.length
      ∧ 4 ≤ lep_E.length then
    let p4 := zipVec4 lep_pt lep_eta lep_phi lep_E
    .ok (((((p4.getD 0 ⟨0, 0, 0, 0⟩).add (p4.getD 1 ⟨0, 0, 0, 0⟩)).add
      (p4.getD 2 ⟨0, 0, 0, 0⟩)).add (p4.getD 3 ⟨0, 0, 0, 0⟩)).M * MeV)
  else
    .error .InsufficientLeptons

/-- Written from the specification's words for comparison with `calc_mllll`:
sum the components of the four four-vectors built from the first four
leptons' `(pt, eta, phi, E)`, compute the invariant mass from total energy
and momentum magnitude, and rescale by the fixed constant `0.001`. -/
noncomputable def invariantMass_spec (lep_pt lep_eta lep_phi lep_E : List ℝ) : ℝ :=
  let px := lep_pt.getD 0 0 * Real.cos (lep_phi.getD 0 0)
    + lep_pt.getD 1 0 * Real.cos (lep_phi.getD 1 0)
    + lep_pt.getD 2 0 * Real.cos (lep_phi.getD 2 0)
    + lep_pt.getD 3 0 * Real.cos (lep_phi.getD 3 0)
  let py := lep_pt.getD 0 0 * Real.sin (lep_phi.getD 0 0)
    + lep_pt.getD 1 0 * Real.sin (lep_phi.getD 1 0)
    + lep_pt.getD 2 0 * Real.sin (lep_phi.getD 2 0)
    + lep_pt.getD 3 0 * Real.sin (lep_phi.getD 3 0)
  let pz := lep_pt.getD 0 0 * Real.sinh (lep_eta.getD 0 0)
    + lep_pt.getD 1 0 * Real.sinh (lep_eta.getD 1 0)
    + lep_pt.getD 2 0 * Real.sinh (lep_eta.getD 2 0)
    + lep_pt.getD 3 0 * Real.sinh (lep_eta.getD 3 0)
  let Etot := lep_E.getD 0 0 + lep_E.getD 1 0 + lep_E.getD 2 0 + lep_E.getD 3 0
  Real.sqrt (Etot ^ 2 - (px ^ 2 + py ^ 2 + pz ^ 2)) * 0.001

lemma exists_cons4 {α : Type*} (l : List α) (h : 4 ≤ l.length) :
    ∃ a b c d t, l = a :: b :: c :: d :: t := by
  rcases l with _ | ⟨a, l⟩
  · simp at h
  rcases l with _ | ⟨b, l⟩
  · simp at h
  rcases l with _ | ⟨c, l⟩
  · simp at h
  rcases l with _ | ⟨d, l⟩
  · simp at h
  exact ⟨a, b, c, d, l, rfl⟩

lemma calc_mllll_cons (p0 p1 p2 p3 : ℝ) (ps : List ℝ) (h0 h1 h2 h3 : ℝ)
    (hs : List ℝ) (f0 f1 f2 f3 : ℝ) (fs : List ℝ) (e0 e1 e2 e3 : ℝ)
    (es : List ℝ) :
    calc_mllll (p0 :: p1 :: p2 :: p3 :: ps) (h0 :: h1 :: h2 :: h3 :: hs)
        (f0 :: f1 :: f2 :: f3 :: fs) (e0 :: e1 :: e2 :: e3 :: es)
      = .ok (((((vecFromPtEtaPhiE p0 h0 f0 e0).add
            (vecFromPtEtaPhiE p1 h1 f1 e1)).add
          (vecFromPtEtaPhiE p2 h2 f2 e2)).add
          (vecFromPtEtaPhiE p3 h3 f3 e3)).M * MeV) := by
  have hlen : 4 ≤ (p0 :: p1 :: p2 :: p3 :: ps).length
      ∧ 4 ≤ (h0 :: h1 :: h2 :: h3 :: hs).length
      ∧ 4 ≤ (f0 :: f1 :: f2 :: f3 :: fs).length
      ∧ 4 ≤ (e0 :: e1 :: e2 :: e3 :: es).length := by
    refine ⟨?_, ?_, ?_, ?_⟩ <;> · simp only [List.length_cons]; omega
  unfold calc_mllll
  rw [if_pos hlen]
  rfl

/-- Claim C4: for an event with at least four leptons, `calc_mllll` returns
the relativistic invariant mass of the component-wise sum of the four
four-vectors built from the first four leptons, rescaled by the fixed
constant `0.001`. -/
theorem claim_C4 (lep_pt lep_eta lep_phi lep_E : List ℝ)
    (hlen : 4 ≤ lep_pt.length ∧ 4 ≤ lep_eta.length ∧ 4 ≤ lep_phi.length
      ∧ 4 ≤ lep_E.length) :
    calc_mllll lep_pt lep_eta lep_phi lep_E
      = .ok (invariantMass_spec lep_pt lep_eta lep_phi lep_E) := by
  obtain ⟨p0, p1, p2, p3, ps, rfl⟩ := exists_cons4 _ hlen.1
  obtain ⟨h0, h1, h2, h3, hs, rfl⟩ := exists_cons4 _ hlen.2.1
  obtain ⟨f0, f1, f2, f3, fs, rfl⟩ := exists_cons4 _ hlen.2.2.1
  obtain ⟨e0, e1, e2, e3, es, rfl⟩ := exists_cons4 _ hlen.2.2.2
  rw [calc_mllll_cons]
  congr 1

/-- Witness for C4 at a concrete four-lepton event. -/
theorem claim_C4_witness :
    calc_mllll [1, 2, 3, 4] [0, 0, 0, 0] [0, 0, 0, 0] [10, 10, 10, 10]
      = .ok (invariantMass_spec [1, 2, 3, 4] [0, 0, 0, 0] [0, 0, 0, 0]
          [10, 10, 10, 10]) :=
  claim_C4 [1, 2, 3, 4] [0, 0, 0, 0] [0, 0, 0, 0] [10, 10, 10, 10]
    (by refine ⟨?_, ?_, ?_, ?_⟩ <;> simp)

/-- Claim C5: for an event with at least four leptons, permuting leptons at
positions 5..N while leaving the first four fixed does not change
`calc_mllll`. -/
theorem claim_C5 (lep_pt lep_eta lep_phi lep_E tp th tf te : List ℝ)
    (hlen : 4 ≤ lep_pt.length ∧ 4 ≤ lep_eta.length ∧ 4 ≤ lep_phi.length
      ∧ 4 ≤ lep_E.length)
    (hp : tp.Perm (lep_pt.drop 4)) (hh : th.Perm (lep_eta.drop 4))
    (hf : tf.Perm (lep_phi.drop 4)) (he : te.Perm (lep_E.drop 4)) :
    calc_mllll (lep_pt.take 4 ++ tp) (lep_eta.take 4 ++ th)
        (lep_phi.take 4 ++ tf) (lep_E.take 4 ++ te)
      = calc_mllll lep_pt lep_eta lep_phi lep_E := by
  obtain ⟨p0, p1, p2, p3, ps, rfl⟩ := exists_cons4 _ hlen.1
  obtain ⟨h0, h1, h2, h3, hs, rfl⟩ := exists_cons4 _ hlen.2.1
  obtain ⟨f0, f1, f2, f3, fs, rfl⟩ := exists_cons4 _ hlen.2.2.1
  obtain ⟨e0, e1, e2, e3, es, rfl⟩ := exists_cons4 _ hlen.2.2.2
  show calc_mllll (p0 :: p1 :: p2 :: p3 :: tp) (h0 :: h1 :: h2 :: h3 :: th)
      (f0 :: f1 :: f2 :: f3 :: tf) (e0 :: e1 :: e2 :: e3 :: te) = _
  rw [calc_mllll_cons, calc_mllll_cons]

/-- Witness for C5: swapping the fifth and sixth leptons of a six-lepton
event leaves `calc_mllll` unchanged. -/
theorem claim_C5_witness :
    calc_mllll [1, 2, 3, 4, 20, 10] [0, 0, 0, 0, 1, 1] [0, 0, 0, 0, 2, 2]
        [9, 9, 9, 9, 7, 7]
      = calc_mllll [1, 2, 3, 4, 10, 20] [0, 0, 0, 0, 1, 1] [0, 0, 0, 0, 2, 2]
        [9, 9, 9, 9, 7, 7] :=
  claim_C5 [1, 2, 3, 4, 10, 20] [0, 0, 0, 0, 1, 1] [0, 0, 0, 0, 2, 2]
    [9, 9, 9, 9, 7, 7] [20, 10] [1, 1] [2, 2] [7, 7]
    (by refine ⟨?_, ?_, ?_, ?_⟩ <;> simp)
    (List.Perm.swap 10 20 []) (List.Perm.refl [1, 1]) (List.Perm.refl [2, 2])
    (List.Perm.refl [7, 7])

/-- Claim C6: an event with fewer than four leptons reaching the mass
calculation makes `calc_mllll` fail with `InsufficientLeptons`; it never
returns a numeric value for such an event. -/
theorem claim_C6 (lep_pt lep_eta lep_phi lep_E : List ℝ) (n : ℕ) (hn : n < 4)
    (h1 : lep_pt.length = n) (h2 : lep_eta.length = n)
    (h3 : lep_phi.length = n) (h4 : lep_E.length = n) :
    calc_mllll lep_pt lep_eta lep_phi lep_E = .error .InsufficientLeptons := by
  unfold calc_mllll
  rw [if_neg]
  rintro ⟨hA, -, -, -⟩
  rw [h1] at hA
  omega

/-- Witness for C6: a two-lepton event yields the `InsufficientLeptons`
error. -/
theorem claim_C6_witness :
    calc_mllll [1, 2] [0, 1] [0, 1] [5, 5] = .error .InsufficientLeptons :=
  claim_C6 [1, 2] [0, 1] [0, 1] [5, 5] 2 (by omega) rfl rfl rfl rfl

/-- The event cap passed by `read_file` to the reader:
`entry_stop=numevents*fraction`.  `uproot` coerces the float product to an
integer entry index by truncation, which for the nonnegative values here is
the floor. -/
def entry_stop (numevents : ℕ) (fraction : ℚ) : ℕ :=
  (⌊(numevents : ℚ) * fraction⌋).toNat

/-- Batch sizes delivered by the reader loop: consecutive batches of at most
`step` events until `stop` entries have been delivered, the last batch
partially consumed to hit the cap exactly.  `fuel` bounds the recursion and
is instantiated with `stop` itself. -/
def batchSizesAux (step : ℕ) : ℕ → ℕ → List ℕ
  | 0, _ => []
  | _ + 1, 0 => []
  | fuel + 1, n + 1 =>
    min step (n + 1) :: batchSizesAux step fuel (n + 1 - min step (n + 1))

/-- The batch sizes yielded by `tree.iterate` under the entry cap `stop`. -/
def batchSizes (step stop : ℕ) : List ℕ :=
  batchSizesAux step stop stop

lemma batchSizesAux_sum (step : ℕ) (hstep : 0 < step) :
    ∀ fuel n, n ≤ fuel → (batchSizesAux step fuel n).sum = n := by
  intro fuel
  induction fuel with
  | zero =>
    intro n hn
    have hn0 : n = 0 := Nat.le_zero.mp hn
    subst hn0
    rfl
  | succ fuel ih =>
    intro n hn
    match n with
    | 0 => rfl
    | m + 1 =>
      show (min step (m + 1)
          :: batchSizesAux step fuel (m + 1 - min step (m + 1))).sum = m + 1
      rw [List.sum_cons, ih _ (by omega)]
      omega

/-- Claim C7: with a fraction in `(0, 1]`, the reader delivers exactly
`floor(totalAvailable * fraction)` events in total across all yielded
batches (never more than are available); in particular 50 events for
`fraction = 1/2` and 100 available events. -/
theorem claim_C7 (numevents step : ℕ) (fraction : ℚ) (hstep : 0 < step)
    (h0 : 0 < fraction) (h1 : fraction ≤ 1) :
    (batchSizes step (entry_stop numevents fraction)).sum
        = entry_stop numevents fraction
    ∧ entry_stop numevents fraction ≤ numevents
    ∧ entry_stop 100 (1 / 2) = 50 := by
  refine ⟨batchSizesAux_sum step hstep _ _ le_rfl, ?_, ?_⟩
  · have hf : (numevents : ℚ) * fraction ≤ (numevents : ℚ) := by
      calc (numevents : ℚ) * fraction ≤ (numevents : ℚ) * 1 :=
        mul_le_mul_of_nonneg_left h1 (by positivity)
      _ = (numevents : ℚ) := mul_one _
    have h2 : ⌊(numevents : ℚ) * fraction⌋ ≤ (numevents : ℤ) := by
      calc ⌊(numevents : ℚ) * fraction⌋ ≤ ⌊(numevents : ℚ)⌋ := Int.floor_mono hf
        _ = (numevents : ℤ) := Int.floor_natCast _
    unfold entry_stop
    omega
  · norm_num [entry_stop]
    rfl

/-- Witness for C7: with batches of at most 7 events, `fraction = 1/2` and
100 available events, the reader delivers exactly 50 events. -/
theorem claim_C7_witness :
    (batchSizes 7 (entry_stop 100 (1 / 2))).sum = entry_stop 100 (1 / 2)
    ∧ entry_stop 100 (1 / 2) ≤ 100
    ∧ entry_stop 100 (1 / 2) = 50 :=
  claim_C7 100 7 (1 / 2) (by omega) (by norm_num) (by norm_num)

lemma bin_index_lt {x : ℚ} (h2 : x < 180) :
    (⌊(x - 70) * 36 / 110⌋).toNat < 36 := by
  have hq : (x - 70) * 36 / 110 < 36 := by
    rw [div_lt_iff₀ (by norm_num : (0:ℚ) < 110)]
    linarith
  have hfl : ⌊(x - 70) * 36 / 110⌋ < 36 := by
    rw [Int.floor_lt]
    exact_mod_cast hq
  omega

/-- ROOT `TH1F` bin assignment used by `FillN` in `save_histograms_to_root`
for the 36 equal-width bins over `[70, 180)`: a value below 70 goes to the
underflow bin and a value at or above 180 to the overflow bin, neither of
which is among the 36 exported bins (`none` here). -/
def rootFindBin (x : ℚ) : Option (Fin 36) :=
  if h : 70 ≤ x ∧ x < 180 then
    some ⟨(⌊(x - 70) * 36 / 110⌋).toNat, bin_index_lt h.2⟩
  else none

/-- numpy bin assignment used by `np.histogram(..., bins=36, range=(70, 180))`
for the observed-data histogram: as `rootFindBin`, except that the closing
edge value 180 is counted in the last bin. -/
def npFindBin (x : ℚ) : Option (Fin 36) :=
  if x = 180 then some ⟨35, by omega⟩ else rootFindBin x

/-- Per-bin weighted contents of a filled histogram: each `(mass, weight)`
pair contributes its weight to its assigned bin, if any. -/
def fillBins (bin : ℚ → Option (Fin 36)) : List (ℚ × ℚ) → Fin 36 → ℚ
  | [], _ => 0
  | (m, w) :: t, j => (if bin m = some j then w else 0) + fillBins bin t j

/-- The sum of the exported histogram's per-bin contents. -/
def binTotal (bin : ℚ → Option (Fin 36)) (events : List (ℚ × ℚ)) : ℚ :=
  ∑ j : Fin 36, fillBins bin events j

lemma binTotal_cons (bin : ℚ → Option (Fin 36)) (m w : ℚ) (t : List (ℚ × ℚ)) :
    binTotal bin ((m, w) :: t)
      = (if (bin m).isSome then w else 0) + binTotal bin t := by
  have hstep : ∀ j : Fin 36, fillBins bin ((m, w) :: t) j
      = (if bin m = some j then w else 0) + fillBins bin t j := fun j => rfl
  unfold binTotal
  rw [Finset.sum_congr rfl fun j _ => hstep j, Finset.sum_add_distrib]
  congr 1
  cases hb : bin m with
  | none => simp [hb]
  | some j0 => simp [hb, Finset.sum_ite_eq]

lemma binTotal_eq (bin : ℚ → Option (Fin 36)) :
    ∀ events : List (ℚ × ℚ),
      binTotal bin events
        = ((events.filter fun p => (bin p.1).isSome).map Prod.snd).sum
  | [] => by simp [binTotal, fillBins]
  | (m, w) :: t => by
    rw [binTotal_cons]
    by_cases hs : (bin m).isSome <;>
      simp [List.filter_cons, hs, binTotal_eq bin t]

lemma rootFindBin_isSome (x : ℚ) :
    (rootFindBin x).isSome = decide (70 ≤ x ∧ x < 180) := by
  unfold rootFindBin
  by_cases h : 70 ≤ x ∧ x < 180 <;> simp [h]

lemma npFindBin_isSome (x : ℚ) :
    (npFindBin x).isSome = decide (70 ≤ x ∧ x ≤ 180) := by
  unfold npFindBin
  by_cases h180 : x = 180
  · subst h180
    norm_num
  · rw [if_neg h180, rootFindBin_isSome, decide_eq_decide]
    constructor
    · rintro ⟨ha, hb⟩
      exact ⟨ha, le_of_lt hb⟩
    · rintro ⟨ha, hb⟩
      exact ⟨ha, lt_of_le_of_ne hb h180⟩

lemma rootFindBin_eq_none {x : ℚ} (hx : x < 70 ∨ 180 ≤ x) :
    rootFindBin x = none := by
  unfold rootFindBin
  rw [dif_neg]
  rintro ⟨h1, h2⟩
  rcases hx with hx | hx <;> linarith

/-- Counterexample to claim C8 as stated: in the observed-data category a
surviving event with mass exactly 180 is counted (weight 1) in the last
numpy bin, so the per-bin total is 1 while the sum over events with mass in
the half-open range `[70, 180)` is 0. -/
theorem claim_C8_counterexample :
    binTotal npFindBin [(180, 1)] = 1
    ∧ (([((180:ℚ), (1:ℚ))].filter fun p =>
        decide (70 ≤ p.1 ∧ p.1 < 180)).map Prod.snd).sum = 0 := by
  constructor
  · rw [binTotal_cons]
    norm_num [npFindBin, binTotal, fillBins]
  · decide

/-- Claim C8 (amended): for every simulated category (ROOT `FillN`) the sum
of the exported per-bin contents equals the sum of the weights of exactly
the surviving events with mass in `[70, 180)`; for the observed-data
category (numpy histogramming, count 1 per event) the range is the closed
interval `[70, 180]`, a mass of exactly 180 being counted in the last bin.
In both cases an out-of-range event contributes to no bin and is not
clipped into the first or last bin. -/
theorem claim_C8 (events : List (ℚ × ℚ)) :
    binTotal rootFindBin events
        = ((events.filter fun p => decide (70 ≤ p.1 ∧ p.1 < 180)).map
            Prod.snd).sum
    ∧ binTotal npFindBin events
        = ((events.filter fun p => decide (70 ≤ p.1 ∧ p.1 ≤ 180)).map
            Prod.snd).sum
    ∧ (∀ x : ℚ, x < 70 ∨ 180 ≤ x → rootFindBin x = none)
    ∧ (∀ x : ℚ, x < 70 ∨ 180 < x → npFindBin x = none) := by
  refine ⟨?_, ?_, ?_, ?_⟩
  · rw [binTotal_eq]
    have hpred : (fun q : ℚ × ℚ => (rootFindBin q.1).isSome)
        = fun q : ℚ × ℚ => decide (70 ≤ q.1 ∧ q.1 < 180) :=
      funext fun q => rootFindBin_isSome q.1
    rw [hpred]
  · rw [binTotal_eq]
    have hpred : (fun q : ℚ × ℚ => (npFindBin q.1).isSome)
        = fun q : ℚ × ℚ => decide (70 ≤ q.1 ∧ q.1 ≤ 180) :=
      funext fun q => npFindBin_isSome q.1
    rw [hpred]
  · intro x hx
    exact rootFindBin_eq_none hx
  · intro x hx
    unfold npFindBin
    rw [if_neg (by rintro rfl; rcases hx with hx | hx <;> norm_num at hx)]
    exact rootFindBin_eq_none
      (by rcases hx with hx | hx; exacts [Or.inl hx, Or.inr hx.le])

/-- Witness for the amended C8: a mass of 60 falls outside every ROOT bin
and a mass of 190 outside every numpy bin. -/
theorem claim_C8_witness :
    rootFindBin 60 = none ∧ npFindBin 190 = none :=
  ⟨(claim_C8 []).2.2.1 60 (Or.inl (by norm_num)),
   (claim_C8 []).2.2.2 190 (Or.inr (by norm_num))⟩
